import Mathlib

/-!
Verification of the rule-based JSON prompt builder core in `app.py`
(`natural_to_template`, `merge_manual_fields`, `validate_schema`).

Python strings are embedded as `List Char` (`Str`); Python dicts as
association lists with unique keys; JSON-like values as the inductive `Val`.
All text processing (strip, lower, whitespace split, substring search,
`textwrap.shorten`, and the two `re.search` patterns used by the source)
is modelled on `List Char` so that every definition is executable.
-/

/-- Embedding of a Python `str`: a sequence of characters. -/
abbrev Str := List Char

/-- Turn a Lean string literal into the `Str` embedding. -/
def S (s : String) : Str := s.data

/-- Python `str.strip()`: drop leading and trailing whitespace. -/
def stripWs (s : Str) : Str :=
  ((s.dropWhile Char.isWhitespace).reverse.dropWhile Char.isWhitespace).reverse

/-- Python `str.lower()` (ASCII case folding, which covers every keyword
the source searches for). -/
def lowerS (s : Str) : Str := s.map Char.toLower

/-- Helper for `wsWords`: accumulate the current word (reversed) while
scanning. -/
def wordsAux : Str → Str → List Str
  | [], acc => if acc.isEmpty then [] else [acc.reverse]
  | c :: rest, acc =>
    if c.isWhitespace then
      if acc.isEmpty then wordsAux rest [] else acc.reverse :: wordsAux rest []
    else wordsAux rest (c :: acc)

/-- Python `str.split()` with no argument: split on whitespace runs,
discarding empty pieces. -/
def wsWords (s : Str) : List Str := wordsAux s []

/-- Join words with single spaces (Python `" ".join(words)`). -/
def joinWords : List Str → Str
  | [] => []
  | [w] => w
  | w :: ws => w ++ ' ' :: joinWords ws

/-- Length contributed by a list of continuation words in a join: one
separator plus the word, for each word. -/
def jlenCont : List Str → Nat
  | [] => 0
  | w :: ws => 1 + w.length + jlenCont ws

/-- Greedy continuation of `fitWords`: `acc` is the joined length taken so
far; keep a word only if the join extended by it still leaves room for the
3-character placeholder. -/
def fitMore (width : Nat) : Nat → List Str → List Str
  | _, [] => []
  | acc, w :: rest =>
    if acc + 1 + w.length + 3 ≤ width then w :: fitMore width (acc + 1 + w.length) rest
    else []

/-- Longest word prefix whose single-space join plus the 3-character
placeholder fits in `width`. -/
def fitWords (width : Nat) : List Str → List Str
  | [] => []
  | w :: rest => if w.length + 3 ≤ width then w :: fitMore width w.length rest else []

/-- Truncation path of `textwrap.shorten` with `max_lines=1` and placeholder
`"..."`: join as many whole words as fit together with the placeholder and
append the placeholder directly after the last word; if not even the first
word fits, the result is the placeholder alone. -/
def shortenTrunc (words : List Str) (width : Nat) : Str :=
  match fitWords width words with
  | [] => S "..."
  | w :: ws => joinWords (w :: ws) ++ S "..."

/-- Model of Python `textwrap.shorten(text, width, placeholder="...")` as
used by the source (word-granularity: whitespace is collapsed first; the
collapsed text is returned whole when it fits in `width`, otherwise it is
truncated at a word boundary with the placeholder appended). -/
def shorten (s : Str) (width : Nat) : Str :=
  let words := wsWords s
  let norm := joinWords words
  if norm.length ≤ width then norm else shortenTrunc words width

/-- Is `needle` a prefix of `hay`? -/
def headMatches : Str → Str → Bool
  | [], _ => true
  | _ :: _, [] => false
  | a :: as, b :: bs => a == b && headMatches as bs

/-- Python substring test `needle in hay`. -/
def occursIn (needle : Str) : Str → Bool
  | [] => headMatches needle []
  | c :: t => headMatches needle (c :: t) || occursIn needle t

/-- Python `any(w in hay for w in ws)`. -/
def hasAny (hay : Str) (ws : List Str) : Bool := ws.any fun w => occursIn w hay

/-- Numeric value of a digit string (`int(m.group(1))`). -/
def natOfDigits (ds : Str) : Nat := ds.foldl (fun acc c => acc * 10 + (c.toNat - '0'.toNat)) 0

/-- Model of `re.search(r"(\d+)\s*(s|sec|secs|seconds|second|m|min|minutes)", lower)`
specialised to the two observations the source makes of the match: the
integer of group 1 and the first character of group 2.  Because the
alternation tries `s` before every longer unit and `m` before `min`/`minutes`,
group 2 is always exactly the single character `s` or `m` standing right
after the digits and optional whitespace; leftmost match wins. -/
def searchDur : Str → Option (Nat × Char)
  | [] => none
  | c :: rest =>
    if c.isDigit then
      match ((c :: rest).dropWhile Char.isDigit).dropWhile Char.isWhitespace with
      | u :: _ =>
        if u = 's' ∨ u = 'm' then some (natOfDigits ((c :: rest).takeWhile Char.isDigit), u)
        else searchDur rest
      | [] => searchDur rest
    else searchDur rest

/-- Second capture group of the size pattern: a greedy `\d{3,4}` with nothing
required after it. -/
def sizeGroup2 (s : Str) : Option Str :=
  let run := s.takeWhile Char.isDigit
  if run.length ≥ 4 then some (run.take 4)
  else if run.length = 3 then some run
  else none

/-- After a candidate first group: `\s*[x×]\s*(\d{3,4})`.  Backtracking into
the whitespace runs cannot succeed (a shorter run would leave the separator
at a whitespace character), so only the maximal runs are tried. -/
def sizeSep (s : Str) : Option Str :=
  match s.dropWhile Char.isWhitespace with
  | c :: rest =>
    if c = 'x' ∨ c = '×' then sizeGroup2 (rest.dropWhile Char.isWhitespace) else none
  | [] => none

/-- Try the size pattern anchored at the start of `s`: greedy `\d{3,4}` for
group 1 (4 digits first, then 3 on backtracking), then separator and
group 2. -/
def matchSizeAt (s : Str) : Option (Str × Str) :=
  let run := s.takeWhile Char.isDigit
  if run.length ≥ 4 then
    match sizeSep (s.drop 4) with
    | some g2 => some (run.take 4, g2)
    | none =>
      match sizeSep (s.drop 3) with
      | some g2 => some (run.take 3, g2)
      | none => none
  else if run.length = 3 then
    match sizeSep (s.drop 3) with
    | some g2 => some (run, g2)
    | none => none
  else none

/-- Model of `re.search(r"(\d{3,4})\s*[x×]\s*(\d{3,4})", text)`: leftmost
match, returning the two digit groups. -/
def searchSize : Str → Option (Str × Str)
  | [] => none
  | c :: rest =>
    match matchSizeAt (c :: rest) with
    | some r => some r
    | none => searchSize rest

/-- JSON-like values as produced by the template builder: the absence marker
`None`, strings, integers, booleans, dicts (insertion-ordered association
lists with unique keys) and lists. -/
inductive Val where
  | null : Val
  | str : Str → Val
  | int : Int → Val
  | bool : Bool → Val
  | obj : List (String × Val) → Val
  | arr : List Val → Val
deriving Repr

/-- Embedding of a Python dict with insertion order. -/
abbrev Dict := List (String × Val)

/-- Python `d.get(k)` / `d[k]`: value at the first occurrence of `k`. -/
def lookupV : Dict → String → Option Val
  | [], _ => none
  | (k', v) :: rest, k => if k' = k then some v else lookupV rest k

/-- Python `d[k] = v`: replace the value at `k` in place, or append the new
binding at the end. -/
def setKey : Dict → String → Val → Dict
  | [], k, v => [(k, v)]
  | (k', v') :: rest, k, v =>
    if k' = k then (k, v) :: rest else (k', v') :: setKey rest k v

/-- The keys of a dict, in order. -/
def keysOf (d : Dict) : List String := d.map Prod.fst

/-- Python `d.update(kvs)`: assign each binding in order. -/
def updateMany (d : Dict) (kvs : List (String × Val)) : Dict :=
  kvs.foldl (fun acc kv => setKey acc kv.1 kv.2) d

/-- The merge's emptiness test
`v is None or (isinstance(v, str) and v.strip() == "")`. -/
def isEmptyOverride : Val → Bool
  | Val.null => true
  | Val.str s => (stripWs s).isEmpty
  | _ => false


/-- The four target tools of the builder. -/
inductive Tool where
  | veo3_video : Tool
  | image : Tool
  | code : Tool
  | other : Tool
deriving Repr, DecidableEq

/-- The initial template `{"meta": {"created_at": now, "source_text": text}}`;
the timestamp is an opaque input of the model. -/
def metaBase (text now : Str) : Dict :=
  [("meta", Val.obj [("created_at", Val.str now), ("source_text", Val.str text)])]

/-- The `template.update({...})` fields of the `veo3_video` branch. -/
def veo3Defaults (t : Str) : List (String × Val) :=
  [("scene_description", Val.str (shorten t 600)),
   ("camera_movement", Val.str (S "static")),
   ("lighting", Val.str (S "natural")),
   ("style", Val.str (S "cinematic")),
   ("duration", Val.int 8),
   ("aspect_ratio", Val.str (S "16:9")),
   ("audio", Val.obj [("music", Val.bool false), ("narration", Val.bool false)])]

/-- Duration rule: on a match of the duration pattern set `duration` to the
integer, times 60 when the unit starts with `m`. -/
def durStep (lower : Str) (tpl : Dict) : Dict :=
  match searchDur lower with
  | some (n, u) =>
    setKey tpl "duration" (Val.int (if u = 'm' then (n : Int) * 60 else (n : Int)))
  | none => tpl

def vertWords : List Str := [S "vertical", S "tiktok", S "9:16"]
def camWords : List Str := [S "pan", S "tilt", S "dolly", S "zoom", S "tracking", S "follow"]
def lightWords : List Str :=
  [S "golden hour", S "sunset", S "soft light", S "studio light", S "dramatic"]
def photoWords : List Str :=
  [S "cinematic", S "film", S "8k", S "ultra realistic", S "photorealistic"]
def cartoonWords : List Str := [S "cartoon", S "2d", S "anime", S "cel-shaded"]

def aspectStep (lower : Str) (tpl : Dict) : Dict :=
  if hasAny lower vertWords then setKey tpl "aspect_ratio" (Val.str (S "9:16")) else tpl

def camStep (lower : Str) (tpl : Dict) : Dict :=
  if hasAny lower camWords then setKey tpl "camera_movement" (Val.str (S "cinematic_tracking"))
  else tpl

def lightStep (lower : Str) (tpl : Dict) : Dict :=
  if hasAny lower lightWords then setKey tpl "lighting" (Val.str (S "dramatic")) else tpl

def photoStep (lower : Str) (tpl : Dict) : Dict :=
  if hasAny lower photoWords then setKey tpl "style" (Val.str (S "cinematic_photorealistic"))
  else tpl

def cartoonStep (lower : Str) (tpl : Dict) : Dict :=
  if hasAny lower cartoonWords then setKey tpl "style" (Val.str (S "cartoon")) else tpl

/-- The `veo3_video` branch of `natural_to_template`: defaults, then the
duration, aspect-ratio, camera, lighting, photorealistic and cartoon rules,
in source order (`t = text.strip()`, `lower = t.lower()`). -/
def veo3Template (text now : Str) : Dict :=
  cartoonStep (lowerS (stripWs text))
    (photoStep (lowerS (stripWs text))
      (lightStep (lowerS (stripWs text))
        (camStep (lowerS (stripWs text))
          (aspectStep (lowerS (stripWs text))
            (durStep (lowerS (stripWs text))
              (updateMany (metaBase text now) (veo3Defaults (stripWs text))))))))

/-- The `template.update({...})` fields of the `image` branch. -/
def imageDefaults (t : Str) : List (String × Val) :=
  [("prompt", Val.str (shorten t 1000)),
   ("style", Val.str (S "photorealistic")),
   ("quality", Val.str (S "high")),
   ("size", Val.str (S "1024x1024")),
   ("negative_prompt", Val.str (S "low-quality, blurry, deformed, text, watermark")),
   ("composition", Val.str (S "centered_subject"))]

/-- Size rule: on a match of the size pattern set
`size = f"{m.group(1)}x{m.group(2)}"`.  The source runs this regex on the
original `text`, not the stripped lowercase form. -/
def sizeStep (text : Str) (tpl : Dict) : Dict :=
  match searchSize text with
  | some (g1, g2) => setKey tpl "size" (Val.str (g1 ++ 'x' :: g2))
  | none => tpl

def cinemaStep (lower : Str) (tpl : Dict) : Dict :=
  if occursIn (S "cinematic") lower then
    setKey (setKey tpl "style" (Val.str (S "cinematic"))) "composition" (Val.str (S "wide"))
  else tpl

def illusStep (lower : Str) (tpl : Dict) : Dict :=
  if occursIn (S "illustration") lower || occursIn (S "vector") lower then
    setKey tpl "style" (Val.str (S "illustration"))
  else tpl

/-- The `image` branch of `natural_to_template`. -/
def imageTemplate (text now : Str) : Dict :=
  illusStep (lowerS (stripWs text))
    (cinemaStep (lowerS (stripWs text))
      (sizeStep text
        (updateMany (metaBase text now) (imageDefaults (stripWs text)))))

/-- Language inference of the `code` branch (`lang or "python"`). -/
def codeLang (lower : Str) : Str :=
  if occursIn (S "python") lower || occursIn (S "py ") lower then S "python"
  else if occursIn (S "javascript") lower || occursIn (S "js ") lower then S "javascript"
  else if occursIn (S "r ") lower || occursIn (S "rstudio") lower then S "r"
  else S "python"

/-- Requirements accumulated by the `code` branch. -/
def codeReqs (lower : Str) : List Val :=
  (if occursIn (S "scrape") lower || occursIn (S "scraping") lower then
     [Val.str (S "requests"), Val.str (S "beautifulsoup4")]
   else []) ++
  (if occursIn (S "pandas") lower || occursIn (S "dataframe") lower then
     [Val.str (S "pandas")]
   else [])

/-- The `code` branch of `natural_to_template`. -/
def codeTemplate (text now : Str) : Dict :=
  (fun tpl =>
    if occursIn (S "notebook") (lowerS (stripWs text)) ||
       occursIn (S "jupyter") (lowerS (stripWs text)) then
      setKey tpl "output_format" (Val.str (S "notebook"))
    else tpl)
  (setKey
    (updateMany (metaBase text now)
      [("task", Val.str (shorten (stripWs text) 1000)),
       ("language", Val.str (codeLang (lowerS (stripWs text)))),
       ("requirements", Val.arr []),
       ("constraints", Val.obj
         [("no_external_network", Val.bool false),
          ("security", Val.str (S "avoid-shell-execution")),
          ("time_complexity", Val.null)]),
       ("output_format", Val.str (S "file"))])
    "requirements" (Val.arr (codeReqs (lowerS (stripWs text)))))

/-- The `other` branch of `natural_to_template`. -/
def otherTemplate (text now : Str) : Dict :=
  updateMany (metaBase text now)
    [("prompt", Val.str (stripWs text)),
     ("style", Val.str (S "neutral")),
     ("quality", Val.str (S "standard")),
     ("constraints", Val.arr [])]

/-- `natural_to_template(tool, text)` of the source; `now` stands for the
`datetime.utcnow()` timestamp. -/
def natural_to_template (tool : Tool) (text now : Str) : Dict :=
  match tool with
  | Tool.veo3_video => veo3Template text now
  | Tool.image => imageTemplate text now
  | Tool.code => codeTemplate text now
  | Tool.other => otherTemplate text now

mutual

/-- `merge_manual_fields(base, manual)`: start from a copy of `base` and
assign each override in order. -/
def merge_manual_fields : Dict → Dict → Dict
  | merged, [] => merged
  | merged, (k, v) :: rest => merge_manual_fields (applyOverride merged k v) rest
termination_by structural _ manual => manual

/-- One iteration of the merge loop: skip empty values; merge two dicts
recursively; otherwise assign the override value. -/
def applyOverride (merged : Dict) (k : String) (v : Val) : Dict :=
  if isEmptyOverride v then merged
  else
    match v, lookupV merged k with
    | Val.obj w, some (Val.obj u) => setKey merged k (Val.obj (merge_manual_fields u w))
    | _, _ => setKey merged k v
termination_by structural v

end

/-- Message appended by `validate_schema` when `jsonschema` is missing. -/
def jsonschemaUnavailableMsg : Str :=
  S "jsonschema package not available in runtime. Install 'jsonschema' to enable validation."

/-- `validate_schema(tool, data)`: when the `jsonschema` import failed the
single synthetic error is returned; otherwise the error list produced by the
external `Draft7Validator` collaborator (modelled as the function argument
`externalValidate`, already path-sorted and formatted). -/
def validate_schema (available : Bool) (externalValidate : Tool → Dict → List Str)
    (tool : Tool) (data : Dict) : List Str :=
  if available then externalValidate tool data else [jsonschemaUnavailableMsg]

/-!
Heap model of `merge_manual_fields`.

`merge_manual_fields` is also modelled at the level of Python's heap, in
order to state its frame property (no mutation of any pre-existing object):
dicts live in a `Store` and are passed by reference, `merged = dict(base)`
allocates a shallow copy, and every assignment names the address it writes.
-/

/-- Heap-level values for the mutation analysis of `merge_manual_fields`:
identical to `Val` except that dicts are references (`ref`) into a store of
dict objects, mirroring Python objects on the heap. -/
inductive HVal where
  | null : HVal
  | str : Str → HVal
  | int : Int → HVal
  | bool : Bool → HVal
  | arr : List HVal → HVal
  | ref : Nat → HVal
deriving Repr

/-- A dict object on the heap. -/
abbrev HDict := List (String × HVal)

/-- The heap: dict objects addressed by position. -/
abbrev Store := List HDict

def lookupH : HDict → String → Option HVal
  | [], _ => none
  | (k', v) :: rest, k => if k' = k then some v else lookupH rest k

def setKeyH : HDict → String → HVal → HDict
  | [], k, v => [(k, v)]
  | (k', v') :: rest, k, v =>
    if k' = k then (k, v) :: rest else (k', v') :: setKeyH rest k v

/-- `merged.get(k)` where `merged` is the dict object at address `i`. -/
def dictGet (store : Store) (i : Nat) (k : String) : Option HVal :=
  (store.get? i).bind fun d => lookupH d k

/-- `merged[k] = v`: mutate the dict object at address `i`. -/
def storeSet (store : Store) (i : Nat) (k : String) (v : HVal) : Store :=
  match store.get? i with
  | some d => store.set i (setKeyH d k v)
  | none => store

/-- The emptiness test of the merge loop at heap level. -/
def hIsEmpty : HVal → Bool
  | HVal.null => true
  | HVal.str s => (stripWs s).isEmpty
  | _ => false

/-- `isinstance(x, dict)` at heap level: the address when the value is a
dict reference. -/
def asRef : HVal → Option Nat
  | HVal.ref i => some i
  | _ => none

/-- One iteration of the merge loop at heap level: skip empty values
(leaving the store as is), merge dict values into a dict already at the key
via the recursive call `rec`, otherwise assign the value into the dict at
`mergedId`. -/
def hstep (rec : Store → Nat → Nat → Option (Store × Nat)) (mergedId : Nat)
    (store : Store) (k : String) (v : HVal) : Option Store :=
  if hIsEmpty v then some store
  else
    match asRef v with
    | some wId =>
      match (dictGet store mergedId k).bind asRef with
      | some uId =>
        match rec store uId wId with
        | some (store2, subId) => some (storeSet store2 mergedId k (HVal.ref subId))
        | none => none
      | none => some (storeSet store mergedId k v)
    | none => some (storeSet store mergedId k v)

/-- The loop of `merge_manual_fields` at heap level: one `hstep` per item of
the manual dict. -/
def hmergeItemsF (rec : Store → Nat → Nat → Option (Store × Nat)) (mergedId : Nat) :
    Store → HDict → Option Store
  | store, [] => some store
  | store, (k, v) :: rest =>
    match hstep rec mergedId store k v with
    | some store2 => hmergeItemsF rec mergedId store2 rest
    | none => none

/-- `merge_manual_fields(base, manual)` at heap level: allocate a shallow
copy of the dict at `baseId` (`merged = dict(base)`) at the next free
address, run the loop over the items of the dict at `manualId`, and return
the new store together with the address of the result.  `fuel` bounds the
recursion depth (`none` on exhaustion or on a dangling address; Python has
no such bound, so only successful runs are modelled). -/
def hmerge : Nat → Store → Nat → Nat → Option (Store × Nat)
  | 0, _, _, _ => none
  | fuel + 1, store, baseId, manualId =>
    match store.get? baseId, store.get? manualId with
    | some base, some manual =>
      match hmergeItemsF (hmerge fuel) store.length (store ++ [base]) manual with
      | some store' => some (store', store.length)
      | none => none
    | _, _ => none

/-- A small concrete heap: the base dict at address 0 holds a reference to
the nested dict at address 1; the manual dict at address 2 also references
address 1. -/
def storeW : Store :=
  [[("audio", HVal.ref 1), ("style", HVal.str (S "cinematic"))],
   [("music", HVal.bool false)],
   [("style", HVal.str (S "cartoon")), ("audio", HVal.ref 1)]]

/-!
Helper lemmas.
-/

theorem merge_nil (m : Dict) : merge_manual_fields m [] = m := rfl

theorem merge_cons (m : Dict) (k : String) (v : Val) (rest : Dict) :
    merge_manual_fields m ((k, v) :: rest) = merge_manual_fields (applyOverride m k v) rest := rfl

theorem lookup_setKey_self (d : Dict) (k : String) (v : Val) :
    lookupV (setKey d k v) k = some v := by
  induction d with
  | nil => simp [setKey, lookupV]
  | cons hd tl ih =>
    obtain ⟨k', v'⟩ := hd
    by_cases h : k' = k
    · subst h; simp [setKey, lookupV]
    · simp [setKey, lookupV, h, ih]

theorem lookup_setKey_ne (d : Dict) (k : String) (v : Val) (k2 : String) (h : k ≠ k2) :
    lookupV (setKey d k v) k2 = lookupV d k2 := by
  induction d with
  | nil => simp [setKey, lookupV, h]
  | cons hd tl ih =>
    obtain ⟨k', v'⟩ := hd
    by_cases h' : k' = k
    · subst h'; simp [setKey, lookupV, h]
    · simp [setKey, lookupV, h', ih]

theorem lookup_applyOverride_ne (m : Dict) (k' : String) (v' : Val) (k : String) (h : k' ≠ k) :
    lookupV (applyOverride m k' v') k = lookupV m k := by
  unfold applyOverride
  split
  · rfl
  · split
    · exact lookup_setKey_ne _ _ _ _ h
    · exact lookup_setKey_ne _ _ _ _ h

theorem merge_lookup_not_mem (ov : Dict) : ∀ (cur : Dict) (k : String), k ∉ keysOf ov →
    lookupV (merge_manual_fields cur ov) k = lookupV cur k := by
  induction ov with
  | nil => intro cur k _; rfl
  | cons hd rest ih =>
    intro cur k h
    obtain ⟨k', v'⟩ := hd
    have hk : k' ≠ k := fun he => h (by simp [keysOf, he])
    have hrest : k ∉ keysOf rest := fun hm => h (by simp [keysOf] at hm ⊢; exact Or.inr hm)
    rw [merge_cons, ih _ _ hrest, lookup_applyOverride_ne _ _ _ _ hk]

theorem lookup_applyOverride_self (m : Dict) (k : String) (v : Val)
    (he : isEmptyOverride v = false)
    (hno : ∀ w u, v = Val.obj w → lookupV m k = some (Val.obj u) → False) :
    lookupV (applyOverride m k v) k = some v := by
  unfold applyOverride
  rw [if_neg (by simp [he])]
  split
  · rename_i v0 x0 w u heq
    exact ((hno w u rfl heq).elim)
  · exact lookup_setKey_self _ _ _

theorem merge_lookup_manual (ov : Dict) : ∀ (cur : Dict) (k : String) (v : Val),
    (keysOf ov).Nodup → lookupV ov k = some v → isEmptyOverride v = false →
    (∀ w u, v = Val.obj w → lookupV cur k = some (Val.obj u) → False) →
    lookupV (merge_manual_fields cur ov) k = some v := by
  induction ov with
  | nil => intro cur k v _ hl _ _; simp [lookupV] at hl
  | cons hd rest ih =>
    intro cur k v hnd hl he hno
    obtain ⟨k', v'⟩ := hd
    rw [merge_cons]
    have hsplit : k' ∉ keysOf rest ∧ (keysOf rest).Nodup := by
      have h0 : (k' :: keysOf rest).Nodup := hnd
      exact List.nodup_cons.mp h0
    by_cases hk : k' = k
    · subst hk
      have hv : v' = v := by simpa [lookupV] using hl
      subst hv
      rw [merge_lookup_not_mem rest _ _ hsplit.1]
      exact lookup_applyOverride_self _ _ _ he hno
    · have hl' : lookupV rest k = some v := by simpa [lookupV, hk] using hl
      apply ih _ _ _ hsplit.2 hl' he
      intro w u hw hu
      exact hno w u hw (by rwa [lookup_applyOverride_ne _ _ _ _ hk] at hu)

theorem merge_lookup_empty (ov : Dict) : ∀ (cur : Dict) (k : String) (v : Val),
    (keysOf ov).Nodup → lookupV ov k = some v → isEmptyOverride v = true →
    lookupV (merge_manual_fields cur ov) k = lookupV cur k := by
  induction ov with
  | nil => intro cur k v _ hl _; simp [lookupV] at hl
  | cons hd rest ih =>
    intro cur k v hnd hl he
    obtain ⟨k', v'⟩ := hd
    rw [merge_cons]
    have hsplit : k' ∉ keysOf rest ∧ (keysOf rest).Nodup := by
      have h0 : (k' :: keysOf rest).Nodup := hnd
      exact List.nodup_cons.mp h0
    by_cases hk : k' = k
    · subst hk
      have hv : v' = v := by simpa [lookupV] using hl
      subst hv
      rw [merge_lookup_not_mem rest _ _ hsplit.1]
      unfold applyOverride
      rw [if_pos (by simp [he])]
    · have hl' : lookupV rest k = some v := by simpa [lookupV, hk] using hl
      rw [ih _ _ _ hsplit.2 hl' he, lookup_applyOverride_ne _ _ _ _ hk]

theorem merge_lookup_objobj (ov : Dict) : ∀ (cur : Dict) (k : String) (u w : Dict),
    (keysOf ov).Nodup → lookupV cur k = some (Val.obj u) → lookupV ov k = some (Val.obj w) →
    lookupV (merge_manual_fields cur ov) k = some (Val.obj (merge_manual_fields u w)) := by
  induction ov with
  | nil => intro cur k u w _ _ hl; simp [lookupV] at hl
  | cons hd rest ih =>
    intro cur k u w hnd hcur hl
    obtain ⟨k', v'⟩ := hd
    rw [merge_cons]
    have hsplit : k' ∉ keysOf rest ∧ (keysOf rest).Nodup := by
      have h0 : (k' :: keysOf rest).Nodup := hnd
      exact List.nodup_cons.mp h0
    by_cases hk : k' = k
    · subst hk
      have hv : v' = Val.obj w := by simpa [lookupV] using hl
      subst hv
      rw [merge_lookup_not_mem rest _ _ hsplit.1]
      unfold applyOverride
      rw [if_neg (by simp [isEmptyOverride])]
      rw [hcur]
      exact lookup_setKey_self _ _ _
    · have hl' : lookupV rest k = some (Val.obj w) := by simpa [lookupV, hk] using hl
      have hcur' : lookupV (applyOverride cur k' v') k = some (Val.obj u) := by
        rwa [lookup_applyOverride_ne _ _ _ _ hk]
      exact ih _ _ _ _ hsplit.2 hcur' hl'

theorem mem_keys_setKey (d : Dict) (k : String) (v : Val) (k2 : String)
    (h : k2 ∈ keysOf d) : k2 ∈ keysOf (setKey d k v) := by
  induction d with
  | nil => simp [keysOf] at h
  | cons hd tl ih =>
    obtain ⟨k', v'⟩ := hd
    by_cases h' : k' = k
    · subst h'
      simp [setKey, keysOf] at h ⊢
      exact h
    · simp [setKey, h', keysOf] at h ⊢
      rcases h with h | h
      · exact Or.inl h
      · exact Or.inr (by simpa [keysOf] using ih (by simpa [keysOf] using h))

theorem keys_applyOverride (m : Dict) (k' : String) (v' : Val) (k : String)
    (h : k ∈ keysOf m) : k ∈ keysOf (applyOverride m k' v') := by
  unfold applyOverride
  split
  · exact h
  · split
    · exact mem_keys_setKey _ _ _ _ h
    · exact mem_keys_setKey _ _ _ _ h

theorem joinWords_cons_length (w : Str) (l : List Str) :
    (joinWords (w :: l)).length = w.length + jlenCont l := by
  induction l generalizing w with
  | nil => simp [joinWords, jlenCont]
  | cons x xs ih =>
    simp only [joinWords, jlenCont]
    rw [List.length_append]
    simp only [List.length_cons]
    rw [show (joinWords (x :: xs)).length = x.length + jlenCont xs from ih x]
    omega

theorem fitMore_fits (width : Nat) : ∀ (rest : List Str) (acc : Nat), acc + 3 ≤ width →
    acc + jlenCont (fitMore width acc rest) + 3 ≤ width := by
  intro rest
  induction rest with
  | nil => intro acc h; simpa [fitMore, jlenCont] using h
  | cons w ws ih =>
    intro acc h
    by_cases hfit : acc + 1 + w.length + 3 ≤ width
    · rw [fitMore, if_pos hfit]
      have := ih (acc + 1 + w.length) hfit
      simp only [jlenCont]
      omega
    · rw [fitMore, if_neg hfit]
      simpa [jlenCont] using h

theorem shortenTrunc_spec (words : List Str) (width : Nat) (h3 : 3 ≤ width) :
    (∃ p, shortenTrunc words width = p ++ S "...") ∧
      (shortenTrunc words width).length ≤ width := by
  match words with
  | [] =>
    refine ⟨⟨[], rfl⟩, ?_⟩
    simpa [shortenTrunc, fitWords, S] using h3
  | w :: rest =>
    by_cases hfit : w.length + 3 ≤ width
    · have hfw : fitWords width (w :: rest) = w :: fitMore width w.length rest := by
        rw [fitWords, if_pos hfit]
      constructor
      · exact ⟨joinWords (w :: fitMore width w.length rest), by rw [shortenTrunc, hfw]⟩
      · rw [shortenTrunc, hfw]
        rw [List.length_append, joinWords_cons_length]
        have := fitMore_fits width rest w.length hfit
        simp [S]
        omega
    · have hfw : fitWords width (w :: rest) = [] := by
        rw [fitWords, if_neg hfit]
      refine ⟨⟨[], by rw [shortenTrunc, hfw]; rfl⟩, ?_⟩
      rw [shortenTrunc, hfw]
      simpa [S] using h3

theorem lookup_durStep_ne (l : Str) (d : Dict) (k : String) (h : k ≠ "duration") :
    lookupV (durStep l d) k = lookupV d k := by
  unfold durStep
  split
  · exact lookup_setKey_ne _ _ _ _ (Ne.symm h)
  · rfl

theorem lookup_aspectStep_ne (l : Str) (d : Dict) (k : String) (h : k ≠ "aspect_ratio") :
    lookupV (aspectStep l d) k = lookupV d k := by
  unfold aspectStep
  split
  · exact lookup_setKey_ne _ _ _ _ (Ne.symm h)
  · rfl

theorem lookup_camStep_ne (l : Str) (d : Dict) (k : String) (h : k ≠ "camera_movement") :
    lookupV (camStep l d) k = lookupV d k := by
  unfold camStep
  split
  · exact lookup_setKey_ne _ _ _ _ (Ne.symm h)
  · rfl

theorem lookup_lightStep_ne (l : Str) (d : Dict) (k : String) (h : k ≠ "lighting") :
    lookupV (lightStep l d) k = lookupV d k := by
  unfold lightStep
  split
  · exact lookup_setKey_ne _ _ _ _ (Ne.symm h)
  · rfl

theorem lookup_photoStep_ne (l : Str) (d : Dict) (k : String) (h : k ≠ "style") :
    lookupV (photoStep l d) k = lookupV d k := by
  unfold photoStep
  split
  · exact lookup_setKey_ne _ _ _ _ (Ne.symm h)
  · rfl

theorem lookup_cartoonStep_ne (l : Str) (d : Dict) (k : String) (h : k ≠ "style") :
    lookupV (cartoonStep l d) k = lookupV d k := by
  unfold cartoonStep
  split
  · exact lookup_setKey_ne _ _ _ _ (Ne.symm h)
  · rfl

theorem lookup_sizeStep_ne (t : Str) (d : Dict) (k : String) (h : k ≠ "size") :
    lookupV (sizeStep t d) k = lookupV d k := by
  unfold sizeStep
  split
  · exact lookup_setKey_ne _ _ _ _ (Ne.symm h)
  · rfl

theorem lookup_cinemaStep_ne (l : Str) (d : Dict) (k : String)
    (h1 : k ≠ "style") (h2 : k ≠ "composition") :
    lookupV (cinemaStep l d) k = lookupV d k := by
  unfold cinemaStep
  split
  · rw [lookup_setKey_ne _ _ _ _ (Ne.symm h2), lookup_setKey_ne _ _ _ _ (Ne.symm h1)]
  · rfl

theorem lookup_illusStep_ne (l : Str) (d : Dict) (k : String) (h : k ≠ "style") :
    lookupV (illusStep l d) k = lookupV d k := by
  unfold illusStep
  split
  · exact lookup_setKey_ne _ _ _ _ (Ne.symm h)
  · rfl

theorem veo3_base_duration (text now : Str) :
    lookupV (updateMany (metaBase text now) (veo3Defaults (stripWs text))) "duration" =
      some (Val.int 8) := rfl

theorem image_base_prompt (text now : Str) :
    lookupV (updateMany (metaBase text now) (imageDefaults (stripWs text))) "prompt" =
      some (Val.str (shorten (stripWs text) 1000)) := rfl

theorem image_base_size (text now : Str) :
    lookupV (updateMany (metaBase text now) (imageDefaults (stripWs text))) "size" =
      some (Val.str (S "1024x1024")) := rfl

theorem lookup_veo3_duration (text now : Str) :
    lookupV (natural_to_template Tool.veo3_video text now) "duration" =
      lookupV (durStep (lowerS (stripWs text))
        (updateMany (metaBase text now) (veo3Defaults (stripWs text)))) "duration" := by
  unfold natural_to_template veo3Template
  rw [lookup_cartoonStep_ne _ _ _ (by decide), lookup_photoStep_ne _ _ _ (by decide),
    lookup_lightStep_ne _ _ _ (by decide), lookup_camStep_ne _ _ _ (by decide),
    lookup_aspectStep_ne _ _ _ (by decide)]

theorem lookup_image_prompt (text now : Str) :
    lookupV (natural_to_template Tool.image text now) "prompt" =
      some (Val.str (shorten (stripWs text) 1000)) := by
  unfold natural_to_template imageTemplate
  rw [lookup_illusStep_ne _ _ _ (by decide),
    lookup_cinemaStep_ne _ _ _ (by decide) (by decide),
    lookup_sizeStep_ne _ _ _ (by decide)]
  exact image_base_prompt text now

theorem lookup_image_size (text now : Str) :
    lookupV (natural_to_template Tool.image text now) "size" =
      lookupV (sizeStep text
        (updateMany (metaBase text now) (imageDefaults (stripWs text)))) "size" := by
  unfold natural_to_template imageTemplate
  rw [lookup_illusStep_ne _ _ _ (by decide),
    lookup_cinemaStep_ne _ _ _ (by decide) (by decide)]

theorem get?_set_ne {α : Type} : ∀ (l : List α) (i j : Nat) (a : α), i ≠ j →
    (l.set i a).get? j = l.get? j := by
  intro l
  induction l with
  | nil => intro i j a _; simp
  | cons x xs ih =>
    intro i j a hij
    match i, j with
    | 0, 0 => exact absurd rfl hij
    | 0, j + 1 => simp [List.set]
    | i + 1, 0 => simp [List.set]
    | i + 1, j + 1 =>
      simp only [List.set, List.get?]
      exact ih i j a (fun h => hij (by rw [h]))

theorem get?_append_left {α : Type} : ∀ (l1 l2 : List α) (i : Nat), i < l1.length →
    (l1 ++ l2).get? i = l1.get? i := by
  intro l1
  induction l1 with
  | nil => intro l2 i h; simp at h
  | cons x xs ih =>
    intro l2 i h
    match i with
    | 0 => rfl
    | i + 1 => exact ih l2 i (by simpa using h)

theorem storeSet_length (store : Store) (i : Nat) (k : String) (v : HVal) :
    (storeSet store i k v).length = store.length := by
  unfold storeSet
  split
  · exact List.length_set _ _ _
  · rfl

theorem storeSet_get_ne (store : Store) (i : Nat) (k : String) (v : HVal) (j : Nat)
    (h : i ≠ j) : (storeSet store i k v).get? j = store.get? j := by
  unfold storeSet
  split
  · exact get?_set_ne _ _ _ _ h
  · rfl

theorem hstep_frame (rec : Store → Nat → Nat → Option (Store × Nat))
    (hrec : ∀ s b m s' id, rec s b m = some (s', id) →
      s.length ≤ s'.length ∧ ∀ i, i < s.length → s'.get? i = s.get? i)
    (mid : Nat) (store : Store) (k : String) (v : HVal) (store2 : Store)
    (h : hstep rec mid store k v = some store2) :
    store.length ≤ store2.length ∧
      ∀ i, i < store.length → i ≠ mid → store2.get? i = store.get? i := by
  have hassign : ∀ v2, some (storeSet store mid k v2) = some store2 →
      store.length ≤ store2.length ∧
        ∀ i, i < store.length → i ≠ mid → store2.get? i = store.get? i := by
    intro v2 hv
    have hs : storeSet store mid k v2 = store2 := Option.some.inj hv
    subst hs
    refine ⟨by rw [storeSet_length], ?_⟩
    intro i hi hne
    rw [storeSet_get_ne _ _ _ _ _ (fun hx => hne hx.symm)]
  unfold hstep at h
  split at h
  · have hs : store = store2 := Option.some.inj h
    subst hs
    exact ⟨Nat.le_refl _, fun _ _ _ => rfl⟩
  · split at h
    · split at h
      · split at h
        · rename_i store3 subId hr
          have h1 := hrec store _ _ _ _ hr
          have hs : storeSet store3 mid k (HVal.ref subId) = store2 := Option.some.inj h
          subst hs
          constructor
          · rw [storeSet_length]
            exact h1.1
          · intro i hi hne
            rw [storeSet_get_ne _ _ _ _ _ (fun hx => hne hx.symm), h1.2 i hi]
        · exact absurd h (by simp)
      · exact hassign v h
    · exact hassign v h

theorem hmergeItemsF_frame (rec : Store → Nat → Nat → Option (Store × Nat))
    (hrec : ∀ s b m s' id, rec s b m = some (s', id) →
      s.length ≤ s'.length ∧ ∀ i, i < s.length → s'.get? i = s.get? i) :
    ∀ (items : HDict) (mergedId : Nat) (store store' : Store),
      hmergeItemsF rec mergedId store items = some store' →
      store.length ≤ store'.length ∧
        ∀ i, i < store.length → i ≠ mergedId → store'.get? i = store.get? i := by
  intro items
  induction items with
  | nil =>
    intro mid s s' h
    have hs : s = s' := by simpa [hmergeItemsF] using h
    subst hs
    exact ⟨Nat.le_refl _, fun _ _ _ => rfl⟩
  | cons hd rest ih =>
    intro mid s s' h
    obtain ⟨k, v⟩ := hd
    rw [hmergeItemsF] at h
    split at h
    · rename_i store2 hstepv
      have h1 := hstep_frame rec hrec mid s k v store2 hstepv
      have h2 := ih mid store2 s' h
      constructor
      · exact Nat.le_trans h1.1 h2.1
      · intro i hi hne
        rw [h2.2 i (Nat.lt_of_lt_of_le hi h1.1) hne, h1.2 i hi hne]
    · exact absurd h (by simp)

theorem merge_mem_keys (ov : Dict) : ∀ (cur : Dict) (k : String),
    k ∈ keysOf cur → k ∈ keysOf (merge_manual_fields cur ov) := by
  induction ov with
  | nil => intro cur k h; exact h
  | cons hd rest ih =>
    intro cur k h
    obtain ⟨k', v'⟩ := hd
    rw [merge_cons]
    exact ih _ _ (keys_applyOverride _ _ _ _ h)

theorem shorten_of_fits (s : Str) (width : Nat)
    (h : (joinWords (wsWords s)).length ≤ width) :
    shorten s width = joinWords (wsWords s) := by
  simp only [shorten]
  rw [if_pos h]

theorem shorten_of_long (s : Str) (width : Nat)
    (h : ¬ (joinWords (wsWords s)).length ≤ width) :
    shorten s width = shortenTrunc (wsWords s) width := by
  simp only [shorten]
  rw [if_neg h]

/-!
Claim theorems.
-/

/-- C1 counterexample: with `base = {"audio": {"music": false, "narration":
false}}`, empty enrichment, and `manual = {"audio": {"music": true}}`, the
key `"audio"` is present in `manual` with a non-empty value, yet the final
value is the recursively merged `{"music": true, "narration": false}`, not
manual's `{"music": true}`. -/
theorem merge_precedence_cex :
    lookupV [("audio", Val.obj [("music", Val.bool true)])] "audio" =
      some (Val.obj [("music", Val.bool true)]) ∧
    isEmptyOverride (Val.obj [("music", Val.bool true)]) = false ∧
    lookupV (merge_manual_fields
      (merge_manual_fields
        [("audio", Val.obj [("music", Val.bool false), ("narration", Val.bool false)])] [])
      [("audio", Val.obj [("music", Val.bool true)])]) "audio" =
      some (Val.obj [("music", Val.bool true), ("narration", Val.bool false)]) ∧
    Val.obj [("music", Val.bool true), ("narration", Val.bool false)] ≠
      Val.obj [("music", Val.bool true)] := by
  refine ⟨rfl, rfl, rfl, ?_⟩
  intro h
  have h2 := congrArg (fun x => match x with | Val.obj l => l.length | _ => 0) h
  simp at h2

/-- C1 (amended): in `merge(merge(base, enrichment), manual)`, at any key
present in `manual` with a non-empty value, the final value equals manual's
value — except when both manual's value and the enrichment-merged value at
that key are mappings, in which case they are merged recursively.  Keys of
`manual` are unique, as for every Python dict. -/
theorem merge_precedence_manual_wins (base enr manual : Dict) (k : String) (v : Val)
    (hnd : (keysOf manual).Nodup) (hl : lookupV manual k = some v)
    (hne : isEmptyOverride v = false)
    (hno : ∀ w u, v = Val.obj w →
      lookupV (merge_manual_fields base enr) k = some (Val.obj u) → False) :
    lookupV (merge_manual_fields (merge_manual_fields base enr) manual) k = some v :=
  merge_lookup_manual manual (merge_manual_fields base enr) k v hnd hl hne hno

/-- Witness for C1 at a concrete triple: the manual style override beats
both the base and the enriched value. -/
theorem merge_precedence_manual_wins_w :
    lookupV (merge_manual_fields
      (merge_manual_fields [("style", Val.str (S "base"))] [("style", Val.str (S "enriched"))])
      [("style", Val.str (S "cartoon"))]) "style" = some (Val.str (S "cartoon")) :=
  merge_precedence_manual_wins _ _ _ _ _ (by decide) rfl rfl
    (fun w u hw _ => Val.noConfusion hw)

/-- C4: an override that is the absence marker or a whitespace-only string
is skipped, leaving the current value unchanged; a present integer zero and
a present boolean false are not empty and do override. -/
theorem merge_emptiness_policy :
    (∀ (cur ov : Dict) (k : String) (v : Val), (keysOf ov).Nodup →
      lookupV ov k = some v → isEmptyOverride v = true →
      lookupV (merge_manual_fields cur ov) k = lookupV cur k) ∧
    (∀ (cur ov : Dict) (k : String), (keysOf ov).Nodup →
      lookupV ov k = some (Val.int 0) →
      lookupV (merge_manual_fields cur ov) k = some (Val.int 0)) ∧
    (∀ (cur ov : Dict) (k : String), (keysOf ov).Nodup →
      lookupV ov k = some (Val.bool false) →
      lookupV (merge_manual_fields cur ov) k = some (Val.bool false)) := by
  refine ⟨fun cur ov k v hnd hl he => merge_lookup_empty ov cur k v hnd hl he, ?_, ?_⟩
  · intro cur ov k hnd hl
    exact merge_lookup_manual ov cur k _ hnd hl rfl (fun w u hw _ => Val.noConfusion hw)
  · intro cur ov k hnd hl
    exact merge_lookup_manual ov cur k _ hnd hl rfl (fun w u hw _ => Val.noConfusion hw)

/-- Witness for C4: the spec's own examples — an empty style string is
skipped, a zero duration overrides, and a false boolean overrides. -/
theorem merge_emptiness_policy_w :
    lookupV (merge_manual_fields [("style", Val.str (S "cinematic"))]
        [("style", Val.str (S ""))]) "style" =
      lookupV [("style", Val.str (S "cinematic"))] "style" ∧
    lookupV (merge_manual_fields [("duration", Val.int 8)]
        [("duration", Val.int 0)]) "duration" = some (Val.int 0) ∧
    lookupV (merge_manual_fields [("music", Val.bool true)]
        [("music", Val.bool false)]) "music" = some (Val.bool false) :=
  ⟨merge_emptiness_policy.1 _ _ "style" _ (by decide) rfl rfl,
   merge_emptiness_policy.2.1 _ _ "duration" (by decide) rfl,
   merge_emptiness_policy.2.2 _ _ "music" (by decide) rfl⟩

/-- C7: when both the current and the override value at a key are mappings,
the merge combines them recursively; nested entries the override does not
mention are preserved; and the spec's concrete audio example evaluates as
stated. -/
theorem merge_recursive_nested :
    (∀ (cur ov : Dict) (k : String) (u w : Dict), (keysOf ov).Nodup →
      lookupV cur k = some (Val.obj u) → lookupV ov k = some (Val.obj w) →
      lookupV (merge_manual_fields cur ov) k = some (Val.obj (merge_manual_fields u w))) ∧
    (∀ (u w : Dict) (k2 : String), k2 ∉ keysOf w →
      lookupV (merge_manual_fields u w) k2 = lookupV u k2) ∧
    merge_manual_fields
        [("audio", Val.obj [("music", Val.bool false), ("narration", Val.bool false)])]
        [("audio", Val.obj [("music", Val.bool true)])] =
      [("audio", Val.obj [("music", Val.bool true), ("narration", Val.bool false)])] :=
  ⟨fun cur ov k u w hnd hc hl => merge_lookup_objobj ov cur k u w hnd hc hl,
   fun u w k2 h => merge_lookup_not_mem w u k2 h, rfl⟩

/-- Witness for C7: a nested merge at a concrete pair of dicts, and the
preservation of a nested key absent from the override. -/
theorem merge_recursive_nested_w :
    lookupV (merge_manual_fields [("audio", Val.obj [("narration", Val.bool false)])]
        [("audio", Val.obj [("music", Val.bool true)])]) "audio" =
      some (Val.obj
        (merge_manual_fields [("narration", Val.bool false)] [("music", Val.bool true)])) ∧
    lookupV (merge_manual_fields [("narration", Val.bool false)]
        [("music", Val.bool true)]) "narration" =
      lookupV [("narration", Val.bool false)] "narration" :=
  ⟨merge_recursive_nested.1 _ _ _ _ _ (by decide) rfl rfl,
   merge_recursive_nested.2.1 _ _ _ (by decide)⟩

/-- C10: every key of the current mapping is still a key of the merge
result — overrides only add or replace, never delete — and nested mappings
that are merged are merged by the same function, so the preservation holds
recursively inside them. -/
theorem merge_never_removes_keys :
    (∀ (cur ov : Dict) (k : String), k ∈ keysOf cur →
      k ∈ keysOf (merge_manual_fields cur ov)) ∧
    (∀ (cur ov : Dict) (k : String) (u w : Dict), (keysOf ov).Nodup →
      lookupV cur k = some (Val.obj u) → lookupV ov k = some (Val.obj w) →
      lookupV (merge_manual_fields cur ov) k = some (Val.obj (merge_manual_fields u w))) :=
  ⟨fun cur ov k h => merge_mem_keys ov cur k h,
   fun cur ov k u w hnd hc hl => merge_lookup_objobj ov cur k u w hnd hc hl⟩

/-- Witness for C10 at concrete mappings: a key missing from the overrides
survives, and the nested merged dict is again a merge of the same shape. -/
theorem merge_never_removes_keys_w :
    "style" ∈ keysOf (merge_manual_fields [("style", Val.str (S "cinematic"))]
      [("quality", Val.str (S "high"))]) ∧
    lookupV (merge_manual_fields [("constraints", Val.obj [("security", Val.null)])]
        [("constraints", Val.obj [("stdlib_only", Val.bool true)])]) "constraints" =
      some (Val.obj (merge_manual_fields [("security", Val.null)]
        [("stdlib_only", Val.bool true)])) :=
  ⟨merge_never_removes_keys.1 _ _ _ (by decide),
   merge_never_removes_keys.2 _ _ _ _ _ (by decide) rfl rfl⟩

set_option maxRecDepth 100000 in
/-- C2 counterexample: `textwrap.shorten` first collapses whitespace, so for
a 1000-character text containing a whitespace run the prompt is the
collapsed `"a b"`, not the text verbatim; and for a 1001-character text with
trailing whitespace the prompt is the 1000 stripped characters with no
ellipsis marker (its last three characters are `aaa`). -/
theorem image_prompt_truncation_cex :
    ('a' :: (List.replicate 998 ' ' ++ ['b'])).length = 1000 ∧
    lookupV (natural_to_template Tool.image ('a' :: (List.replicate 998 ' ' ++ ['b'])) [])
        "prompt" = some (Val.str (S "a b")) ∧
    S "a b" ≠ 'a' :: (List.replicate 998 ' ' ++ ['b']) ∧
    (List.replicate 1000 'a' ++ [' ']).length = 1001 ∧
    lookupV (natural_to_template Tool.image (List.replicate 1000 'a' ++ [' ']) []) "prompt" =
      some (Val.str (List.replicate 1000 'a')) ∧
    (List.replicate 1000 'a').drop 997 ≠ S "..." :=
  ⟨by decide, rfl, by decide, by decide, rfl, by decide⟩

/-- C2 (amended): for whitespace-normalized text — text that equals the
single-space join of its whitespace-split words, and has no leading or
trailing whitespace — the image prompt at exactly 1000 characters is the
text verbatim with no ellipsis marker, and at 1001 characters it is a
truncation that ends in the ellipsis marker and is at most 1000 characters
long.  (For non-normalized text the prompt is computed from the collapsed
text, so the claim as stated fails; see the counterexample.) -/
theorem image_prompt_truncation_boundary (text now : Str)
    (hstrip : stripWs text = text) (hnorm : joinWords (wsWords text) = text) :
    (text.length = 1000 →
      lookupV (natural_to_template Tool.image text now) "prompt" = some (Val.str text)) ∧
    (text.length = 1001 →
      ∃ p, lookupV (natural_to_template Tool.image text now) "prompt" = some (Val.str p) ∧
        (∃ q, p = q ++ S "...") ∧ p.length ≤ 1000) := by
  constructor
  · intro hlen
    rw [lookup_image_prompt, hstrip,
      shorten_of_fits text 1000 (by rw [hnorm]; omega), hnorm]
  · intro hlen
    rw [lookup_image_prompt, hstrip,
      shorten_of_long text 1000 (by rw [hnorm]; omega)]
    have hspec := shortenTrunc_spec (wsWords text) 1000 (by decide)
    exact ⟨shortenTrunc (wsWords text) 1000, rfl, hspec.1, hspec.2⟩

set_option maxRecDepth 100000 in
/-- Witness for C2 at the two boundary lengths: a normalized 1000-character
text survives verbatim, and a normalized 1001-character text is truncated
with the marker. -/
theorem image_prompt_truncation_boundary_w :
    lookupV (natural_to_template Tool.image (List.replicate 1000 'a') []) "prompt" =
      some (Val.str (List.replicate 1000 'a')) ∧
    (∃ p, lookupV (natural_to_template Tool.image (List.replicate 1001 'a') []) "prompt" =
        some (Val.str p) ∧ (∃ q, p = q ++ S "...") ∧ p.length ≤ 1000) :=
  ⟨(image_prompt_truncation_boundary (List.replicate 1000 'a') []
      (by decide) (by decide)).1 (by decide),
   (image_prompt_truncation_boundary (List.replicate 1001 'a') []
      (by decide) (by decide)).2 (by decide)⟩

/-- C3 counterexample: the source pattern is `\d{3,4}`, so the two-digit
dimension `50x50` is not extracted (the default `1024x1024` stays), and a
matched pattern is not used verbatim — its separator is normalized, so
`800 × 600` yields `800x600`. -/
theorem image_size_pattern_cex :
    occursIn (S "50x50") (S "50x50") = true ∧
    lookupV (natural_to_template Tool.image (S "50x50") []) "size" =
      some (Val.str (S "1024x1024")) ∧
    S "1024x1024" ≠ S "50x50" ∧
    lookupV (natural_to_template Tool.image (S "a 800 × 600 photo") []) "size" =
      some (Val.str (S "800x600")) ∧
    occursIn (S "800 × 600") (S "a 800 × 600 photo") = true ∧
    S "800x600" ≠ S "800 × 600" :=
  ⟨by decide, rfl, by decide, rfl, by decide, by decide⟩

/-- C3 (amended): if the text contains two digit groups of 3–4 digits each
separated by `x` or `×` (with optional whitespace around the separator),
`size` is the two matched digit groups joined by a literal `x`; otherwise
`size` is the default `1024x1024`. -/
theorem image_size_pattern (text now : Str) :
    (∀ g1 g2, searchSize text = some (g1, g2) →
      lookupV (natural_to_template Tool.image text now) "size" =
        some (Val.str (g1 ++ 'x' :: g2))) ∧
    (searchSize text = none →
      lookupV (natural_to_template Tool.image text now) "size" =
        some (Val.str (S "1024x1024"))) := by
  constructor
  · intro g1 g2 h
    rw [lookup_image_size]
    unfold sizeStep
    rw [h]
    exact lookup_setKey_self _ _ _
  · intro h
    rw [lookup_image_size]
    unfold sizeStep
    rw [h]
    exact image_base_size text now

/-- Witness for C3: a matched 4-digit dimension is normalized into `size`,
and a text without the pattern keeps the default. -/
theorem image_size_pattern_w :
    lookupV (natural_to_template Tool.image (S "banner 1920x1080 dark") []) "size" =
      some (Val.str (S "1920" ++ 'x' :: S "1080")) ∧
    lookupV (natural_to_template Tool.image (S "a plain photo") []) "size" =
      some (Val.str (S "1024x1024")) :=
  ⟨(image_size_pattern _ _).1 (S "1920") (S "1080") rfl,
   (image_size_pattern _ _).2 rfl⟩

/-- C5: the veo3 duration defaults to 8; a leftmost match of the duration
pattern sets it to the matched integer, multiplied by 60 when the unit
starts with `m`; and the spec's scenario text yields duration 120, aspect
ratio 9:16, photorealistic style and dramatic lighting. -/
theorem veo3_duration_parsing :
    (∀ text now : Str, searchDur (lowerS (stripWs text)) = none →
      lookupV (natural_to_template Tool.veo3_video text now) "duration" = some (Val.int 8)) ∧
    (∀ (text now : Str) (n : Nat) (u : Char), searchDur (lowerS (stripWs text)) = some (n, u) →
      lookupV (natural_to_template Tool.veo3_video text now) "duration" =
        some (Val.int (if u = 'm' then (n : Int) * 60 else (n : Int)))) ∧
    (lookupV (natural_to_template Tool.veo3_video
        (S "A 2 minute vertical cinematic shot with dramatic lighting") []) "duration" =
        some (Val.int 120) ∧
      lookupV (natural_to_template Tool.veo3_video
        (S "A 2 minute vertical cinematic shot with dramatic lighting") []) "aspect_ratio" =
        some (Val.str (S "9:16")) ∧
      lookupV (natural_to_template Tool.veo3_video
        (S "A 2 minute vertical cinematic shot with dramatic lighting") []) "style" =
        some (Val.str (S "cinematic_photorealistic")) ∧
      lookupV (natural_to_template Tool.veo3_video
        (S "A 2 minute vertical cinematic shot with dramatic lighting") []) "lighting" =
        some (Val.str (S "dramatic"))) := by
  refine ⟨?_, ?_, rfl, rfl, rfl, rfl⟩
  · intro text now h
    rw [lookup_veo3_duration]
    unfold durStep
    rw [h]
    exact veo3_base_duration text now
  · intro text now n u h
    rw [lookup_veo3_duration]
    unfold durStep
    rw [h]
    exact lookup_setKey_self _ _ _

/-- Witness for C5: the default with no duration pattern, and a parsed
seconds value. -/
theorem veo3_duration_parsing_w :
    lookupV (natural_to_template Tool.veo3_video (S "calm lake at dawn") []) "duration" =
      some (Val.int 8) ∧
    lookupV (natural_to_template Tool.veo3_video (S "a 45 sec clip") []) "duration" =
      some (Val.int 45) := by
  constructor
  · exact veo3_duration_parsing.1 _ _ rfl
  · have h := veo3_duration_parsing.2.1 (S "a 45 sec clip") [] 45 's' rfl
    simpa using h

/-- C6: the cartoon rule runs after the photorealistic rule, so any text
containing both a photorealistic keyword and a cartoon keyword ends with
`style = "cartoon"`; in particular the spec's scenario text does. -/
theorem veo3_cartoon_precedence :
    (∀ text now : Str, hasAny (lowerS (stripWs text)) photoWords = true →
      hasAny (lowerS (stripWs text)) cartoonWords = true →
      lookupV (natural_to_template Tool.veo3_video text now) "style" =
        some (Val.str (S "cartoon"))) ∧
    lookupV (natural_to_template Tool.veo3_video
      (S "an ultra realistic cartoon anime scene") []) "style" =
      some (Val.str (S "cartoon")) := by
  constructor
  · intro text now _ h2
    unfold natural_to_template veo3Template cartoonStep
    rw [if_pos h2]
    exact lookup_setKey_self _ _ _
  · rfl

/-- Witness for C6 on a text with an `8k` photorealistic keyword and a
`cel-shaded` cartoon keyword. -/
theorem veo3_cartoon_precedence_w :
    lookupV (natural_to_template Tool.veo3_video (S "an 8k cel-shaded short") []) "style" =
      some (Val.str (S "cartoon")) :=
  veo3_cartoon_precedence.1 _ _ (by decide) (by decide)

/-- C8: `merge_manual_fields` mutates no pre-existing heap object — every
address that existed before the call (the base dict, the manual dict, and
every nested dict either of them reaches) holds exactly the same object
afterwards — and the returned mapping is a fresh address. -/
theorem merge_no_mutation : ∀ (fuel : Nat) (store : Store) (baseId manualId : Nat)
    (store' : Store) (newId : Nat),
    hmerge fuel store baseId manualId = some (store', newId) →
    (∀ i, i < store.length → store'.get? i = store.get? i) ∧
      newId = store.length ∧ store.length ≤ store'.length := by
  intro fuel
  induction fuel with
  | zero => intro s b m s' id h; simp [hmerge] at h
  | succ fuel ih =>
    intro s b m s' id h
    rw [hmerge] at h
    split at h
    · rename_i base manual hb hm
      split at h
      · rename_i st2 hitems
        have hinj := Option.some.inj h
        have hs : st2 = s' := congrArg Prod.fst hinj
        have hid : s.length = id := congrArg Prod.snd hinj
        subst hs
        have hrec : ∀ s2 b2 m2 s2' id2, hmerge fuel s2 b2 m2 = some (s2', id2) →
            s2.length ≤ s2'.length ∧ ∀ i, i < s2.length → s2'.get? i = s2.get? i := by
          intro s2 b2 m2 s2' id2 h2
          have h3 := ih s2 b2 m2 s2' id2 h2
          exact ⟨h3.2.2, h3.1⟩
        have hframe := hmergeItemsF_frame (hmerge fuel) hrec manual s.length
          (s ++ [base]) st2 hitems
        refine ⟨?_, hid.symm, ?_⟩
        · intro i hi
          have hi2 : i < (s ++ [base]).length := by
            rw [List.length_append]
            exact Nat.lt_of_lt_of_le hi (by simp)
          rw [hframe.2 i hi2 (Nat.ne_of_lt hi), get?_append_left s [base] i hi]
        · calc s.length ≤ s.length + 1 := Nat.le_succ _
            _ = (s ++ [base]).length := by simp
            _ ≤ st2.length := hframe.1
      · exact absurd h (by simp)
    · exact absurd h (by simp)

/-- Witness for C8: a run on `storeW` that merges a nested dict; the three
pre-existing objects, including the shared nested dict at address 1, are
unchanged, and the result lives at the fresh address 3. -/
theorem merge_no_mutation_w :
    hmerge 5 storeW 0 2 =
      some ([[("audio", HVal.ref 1), ("style", HVal.str (S "cinematic"))],
             [("music", HVal.bool false)],
             [("style", HVal.str (S "cartoon")), ("audio", HVal.ref 1)],
             [("audio", HVal.ref 4), ("style", HVal.str (S "cartoon"))],
             [("music", HVal.bool false)]], 3) ∧
    ([[("audio", HVal.ref 1), ("style", HVal.str (S "cinematic"))],
      [("music", HVal.bool false)],
      [("style", HVal.str (S "cartoon")), ("audio", HVal.ref 1)],
      [("audio", HVal.ref 4), ("style", HVal.str (S "cartoon"))],
      [("music", HVal.bool false)]] : Store).get? 0 = storeW.get? 0 ∧
    ([[("audio", HVal.ref 1), ("style", HVal.str (S "cinematic"))],
      [("music", HVal.bool false)],
      [("style", HVal.str (S "cartoon")), ("audio", HVal.ref 1)],
      [("audio", HVal.ref 4), ("style", HVal.str (S "cartoon"))],
      [("music", HVal.bool false)]] : Store).get? 1 = storeW.get? 1 ∧
    ([[("audio", HVal.ref 1), ("style", HVal.str (S "cinematic"))],
      [("music", HVal.bool false)],
      [("style", HVal.str (S "cartoon")), ("audio", HVal.ref 1)],
      [("audio", HVal.ref 4), ("style", HVal.str (S "cartoon"))],
      [("music", HVal.bool false)]] : Store).get? 2 = storeW.get? 2 ∧
    (3 : Nat) = storeW.length := by
  have h : hmerge 5 storeW 0 2 =
      some ([[("audio", HVal.ref 1), ("style", HVal.str (S "cinematic"))],
             [("music", HVal.bool false)],
             [("style", HVal.str (S "cartoon")), ("audio", HVal.ref 1)],
             [("audio", HVal.ref 4), ("style", HVal.str (S "cartoon"))],
             [("music", HVal.bool false)]], 3) := rfl
  have hf := merge_no_mutation 5 storeW 0 2 _ 3 h
  exact ⟨h, hf.1 0 (by decide), hf.1 1 (by decide), hf.1 2 (by decide), hf.2.1⟩

/-- C9: when the schema-validation capability is absent, `validate_schema`
returns, for every tool and data, exactly one error, whose message states
that validation is not available. -/
theorem validation_unavailable_single_error
    (externalValidate : Tool → Dict → List Str) (tool : Tool) (data : Dict) :
    validate_schema false externalValidate tool data = [jsonschemaUnavailableMsg] ∧
    (validate_schema false externalValidate tool data).length = 1 ∧
    occursIn (S "not available") jsonschemaUnavailableMsg = true :=
  ⟨rfl, rfl, by decide⟩
